import Mathlib

/-!
Verification development for the `email_finder_api` repository.

The repository contains two near-duplicate pipelines built around a class
`EmailFinder`:

* `src/app.py` — the fuller variant: similarity-gated DuckDuckGo domain
  resolution with a slug/TLD probing fallback, page crawling with email
  extraction and validation, SMTP verification with catch-all detection,
  and a guessing stage; its orchestrator `find_company_emails` ignores its
  `verify` parameter and always returns `success: True`.
* `src/company_email_finder.py` — the variant whose orchestrator honours
  `verify` by filtering extracted addresses through an MX-record check and
  returning the unfiltered list as `all_emails`.

Strings are modelled as `List Char` (`Str`).  Python string primitives
(`lower`, `strip`, `split`, `startswith`, substring containment,
`replace(old, '')`) are re-implemented below on `Str`; `lower` is the
ASCII case map, which agrees with Python on every string appearing in the
pipeline.  Network and DNS effects (HTTP fetches, DuckDuckGo result links,
HEAD probes, MX resolution, SMTP RCPT outcomes) are supplied by an
explicit environment record `Env`; an `Option`/`none` result models a
raised-and-caught request exception.  Floating-point similarity ratios are
modelled exactly in `ℚ`; the thresholds 0.35 and 0.4 compared against
them are rationals with tiny denominators, so the comparison agrees with
the double-precision comparison performed by Python for every realistic
operand.
-/

set_option maxRecDepth 4000000

namespace EmailFinderApi

/-- Python `str` values are modelled as lists of characters. -/
abbrev Str := List Char

/-- Python `s.lower()` (ASCII case map; agrees with CPython on ASCII input). -/
def lowerStr (s : Str) : Str := s.map Char.toLower

/-- Python `s.strip()`: drop leading and trailing whitespace. -/
def stripWs (s : Str) : Str :=
  ((s.dropWhile Char.isWhitespace).reverse.dropWhile Char.isWhitespace).reverse

/-- Python `needle in hay` on strings: substring containment. -/
def substrB (needle hay : Str) : Bool :=
  hay.tails.any (fun t => needle.isPrefixOf t)

/-- Python `s.split(c)` for a single-character separator (no maxsplit). -/
def splitOnChar (c : Char) : Str → List Str
  | [] => [[]]
  | x :: xs =>
    let r := splitOnChar c xs
    if x = c then [] :: r
    else
      match r with
      | [] => [[x]]
      | h :: t => (x :: h) :: t

/-- Python `s.split(c, 1)` when `c` occurs in `s`: the parts before and after
the first occurrence.  `none` models the `ValueError` raised by unpacking
`s.split(c, 1)` into two variables when `c` does not occur. -/
def splitFirst (c : Char) : Str → Option (Str × Str)
  | [] => none
  | x :: xs =>
    if x = c then some ([], xs)
    else (splitFirst c xs).map (fun pr => (x :: pr.1, pr.2))

/-- Fuel-indexed worker for `removeAll`; the fuel (initially the length of the
string) bounds the recursion depth, which suffices because each step consumes
at least one character. -/
def removeAllGo (pat : Str) : Nat → Str → Str
  | _, [] => []
  | 0, s => s
  | fuel + 1, c :: rest =>
    if pat ≠ [] ∧ pat.isPrefixOf (c :: rest) then
      removeAllGo pat fuel ((c :: rest).drop pat.length)
    else c :: removeAllGo pat fuel rest

/-- Python `s.replace(pat, '')`: delete every (left-to-right, non-overlapping)
occurrence of `pat`. -/
def removeAll (pat : Str) (s : Str) : Str := removeAllGo pat s.length s

/-- The scheme/`www.` stripping `domain.replace('https://','').replace('http://','').replace('www.','')`
used both for the crawl target domain and for the guessing base. -/
def stripWeb (d : Str) : Str :=
  removeAll "www.".toList (removeAll "http://".toList (removeAll "https://".toList d))

/-- Python `re.sub(r'[^a-z0-9]', '', name.lower())`: the slug of a company name. -/
def slugOf (name : Str) : Str :=
  (lowerStr name).filter (fun c => c.isLower || c.isDigit)

/-- Insertion into the model of a Python `set` of strings, represented as a
duplicate-free list in first-insertion order (set iteration order is
unspecified in Python; all claim statements are order-insensitive). -/
def insertUniq (e : Str) (l : List Str) : List Str :=
  if l.contains e then l else l ++ [e]

/-- Split a string at the first occurrence of a (non-empty) substring:
returns the parts before and after it, or `none` if absent. -/
def splitAtSub (pat : Str) : Str → Option (Str × Str)
  | [] => none
  | c :: rest =>
    if pat.isPrefixOf (c :: rest) then some ([], (c :: rest).drop pat.length)
    else (splitAtSub pat rest).map (fun pr => (c :: pr.1, pr.2))

/-- Python `urljoin(base, page)` for the shapes the pipeline uses: every page
path starts with `/`, so the result is the scheme and network location of
`base` followed by the path (and a base without `://` contributes nothing). -/
def urljoinM (base page : Str) : Str :=
  match splitAtSub "://".toList base with
  | some (scheme, rest) =>
    let netloc := rest.takeWhile (fun c => c ≠ '/')
    scheme ++ "://".toList ++ netloc ++ page
  | none => page

/-- `DISPOSABLE_DOMAINS` (identical in both source files). -/
def DISPOSABLE_DOMAINS : List Str :=
  ["tempmail.com".toList, "guerrillamail.com".toList, "mailinator.com".toList,
   "10minutemail.com".toList]

/-- `GENERIC_DOMAINS` (identical in both source files). -/
def GENERIC_DOMAINS : List Str :=
  ["godaddy.com".toList, "wix.com".toList, "wordpress.com".toList,
   "squarespace.com".toList, "gmail.com".toList, "yahoo.com".toList,
   "hotmail.com".toList, "outlook.com".toList, "aol.com".toList,
   "latofonts.com".toList, "googlefonts.com".toList, "typekit.com".toList,
   "fontawesome.com".toList, "cloudflare.com".toList, "amazonaws.com".toList,
   "azurewebsites.net".toList, "example.com".toList, "test.com".toList,
   "localhost".toList]

/-- `INVALID_PREFIXES` (identical in both source files). -/
def INVALID_PREFIXES : List Str :=
  ["noreply".toList, "no-reply".toList, "donotreply".toList,
   "do-not-reply".toList, "filler".toList, "test".toList, "admin".toList,
   "postmaster".toList, "webmaster".toList, "support@example".toList,
   "info@example".toList, "sales@example".toList]

/-- The file-extension markers rejected by `_is_valid_email` (identical in
both source files). -/
def FILE_EXTENSIONS : List Str :=
  [".jpg".toList, ".jpeg".toList, ".png".toList, ".gif".toList,
   ".svg".toList, ".webp".toList, ".bmp".toList, ".ico".toList,
   ".pdf".toList, ".doc".toList, ".docx".toList, ".zip".toList,
   ".css".toList, ".js".toList, ".json".toList, ".xml".toList]

/-- The suspicious-pattern markers of `app.py`'s `_is_valid_email`. -/
def SUSPICIOUS_APP : List Str :=
  ["user@domain.com".toList, "example.".toList, "test@".toList,
   "dummy".toList, "fake".toList, "sample".toList, "name@domain".toList]

/-- The suspicious-pattern markers of `company_email_finder.py`'s
`_is_valid_email`. -/
def SUSPICIOUS_CEF : List Str :=
  ["example.".toList, "test@".toList, "dummy".toList, "fake".toList,
   "sample".toList]

/-- The common body of `_is_valid_email`, parameterised by the
suspicious-marker list (the only point where the two files differ). -/
def isValidEmailWith (suspicious : List Str) (email0 : Str) : Bool :=
  let email := stripWs (lowerStr email0)
  if ¬ email.contains '@' then false
  else if ¬ ((splitOnChar '@' email).getLastD []).contains '.' then false
  else if FILE_EXTENSIONS.any (fun ext => substrB ext email) then false
  else
    match splitOnChar '@' email with
    | [loc, dom] =>
      if DISPOSABLE_DOMAINS.contains dom then false
      else if GENERIC_DOMAINS.contains dom then false
      else if INVALID_PREFIXES.any (fun p => p.isPrefixOf loc) then false
      else if loc.length < 2 ∨ dom.length < 4 then false
      else if ¬ dom.contains '.' then false
      else if suspicious.any (fun p => substrB p email) then false
      else true
    | _ => false

/-- `EmailFinder._is_valid_email` of `src/app.py`. -/
def isValidEmailApp (email : Str) : Bool := isValidEmailWith SUSPICIOUS_APP email

/-- `EmailFinder._is_valid_email` of `src/company_email_finder.py` (same
checks; its suspicious-marker list lacks `user@domain.com` and
`name@domain`, and its `generic_locals` block is a no-op `pass`). -/
def isValidEmailCef (email : Str) : Bool := isValidEmailWith SUSPICIOUS_CEF email

/-! ### `difflib.SequenceMatcher` ratio

`EmailFinder._similar` calls `difflib.SequenceMatcher(None, a, b).ratio()`.
The matcher is modelled exactly: `longestMatchCore` is the
`find_longest_match` dynamic program (the longest common run through
non-junk characters of `b`, tie-broken towards the smallest indices, which
is what CPython's ascending scan with strict improvement selects),
`longestMatch` adds CPython's junk-adjacency extensions, and `matchTotalF`
is the recursive block decomposition of `get_matching_blocks` whose total
matched size feeds `ratio`.  With `b2j=None` the only junk is the autojunk
heuristic: for `len(b) >= 200`, characters occurring in more than 1% of
`b`. -/

/-- The autojunk ("popular") character set of `difflib.SequenceMatcher` for
second sequence `b`: active only when `b` has at least 200 elements. -/
def isJunk (b : Str) (c : Char) : Bool :=
  decide (200 ≤ b.length) && decide (b.length < 100 * b.count c)

/-- Length of the common prefix run of two strings through characters that
are not junk in the second string. -/
def runLen (junk : Char → Bool) : Str → Str → Nat
  | x :: xs, y :: ys => if x = y ∧ junk y = false then runLen junk xs ys + 1 else 0
  | _, _ => 0

/-- Length of the common prefix run of two strings through characters that
are junk in the second string (CPython's junk-adjacency extension loops). -/
def junkExtLen (junk : Char → Bool) : Str → Str → Nat
  | x :: xs, y :: ys => if x = y ∧ junk y = true then junkExtLen junk xs ys + 1 else 0
  | _, _ => 0

/-- The dynamic-programming core of `find_longest_match`: the triple
`(i, j, size)` of the longest common non-junk run, preferring the smallest
`i` and then the smallest `j` among runs of maximal size. -/
def longestMatchCore (junk : Char → Bool) (a b : Str) : Nat × Nat × Nat :=
  (List.range (a.length + 1)).foldl (fun best i =>
    (List.range (b.length + 1)).foldl (fun best j =>
      let k := runLen junk (a.drop i) (b.drop j)
      if best.2.2 < k then (i, j, k) else best) best) (0, 0, 0)

/-- `find_longest_match`: the core match extended on both sides over equal
junk characters (the non-junk extension loops of CPython cannot fire on a
maximal core match). -/
def longestMatch (junk : Char → Bool) (a b : Str) : Nat × Nat × Nat :=
  let c := longestMatchCore junk a b
  let i := c.1
  let j := c.2.1
  let k := c.2.2
  let t := junkExtLen junk (a.take i).reverse (b.take j).reverse
  let r := junkExtLen junk (a.drop (i + k)) (b.drop (j + k))
  (i - t, j - t, k + t + r)

/-- Total size of the matching blocks of `get_matching_blocks`: recursively
take the longest match and recurse on the parts to its left and right.  The
fuel (instantiated with `a.length + b.length + 1`) bounds the recursion
depth; it is sufficient because each recursive call strictly decreases the
combined length of the two windows. -/
def matchTotalF (junk : Char → Bool) : Nat → Str → Str → Nat
  | 0, _, _ => 0
  | fuel + 1, a, b =>
    let m := longestMatch junk a b
    let i := m.1
    let j := m.2.1
    let k := m.2.2
    if k = 0 then 0
    else k + matchTotalF junk fuel (a.take i) (b.take j)
           + matchTotalF junk fuel (a.drop (i + k)) (b.drop (j + k))

/-- `difflib.SequenceMatcher(None, a, b).ratio()`, computed exactly in `ℚ`:
`2 * M / (len(a) + len(b))` (written with `mkRat`, which denotes the same
rational as the division), and `1.0` when both strings are empty. -/
def ratioQ (a b : Str) : ℚ :=
  let m := matchTotalF (isJunk b) (a.length + b.length + 1) a b
  if a.length + b.length = 0 then 1
  else mkRat (2 * m) (a.length + b.length)

/-- The `cleaned_name` normalization of `_similar`:
`re.sub(r'[^a-z0-9]', '', name.lower())`. -/
def cleanedName (name : Str) : Str :=
  (lowerStr name).filter (fun c => c.isLower || c.isDigit)

/-- The `cleaned_domain` normalization of `_similar`:
`domain.lower().split('.')[0]`. -/
def cleanedDomain (dom : Str) : Str :=
  (lowerStr dom).takeWhile (fun c => c ≠ '.')

/-- `EmailFinder._similar` of `src/app.py`: strip the lower-cased `name` to
`[a-z0-9]`, take the part of the lower-cased `domain` before its first dot,
and return the sequence-matcher ratio of the two. -/
def similar (name dom : Str) : ℚ :=
  ratioQ (cleanedName name) (cleanedDomain dom)

/-! ### Environment

All network, DNS and SMTP effects are supplied by an environment record.
`none` results model requests that raise (and are caught by the code). -/

/-- The external world as seen by the pipeline.

* `searchLinks name country` — the domain candidates parsed from the
  DuckDuckGo result page for the query built from `name` and `country`
  (each the `netloc` of a result link starting with `http`, with `www.`
  removed, exactly what lines 75–79 of `app.py` extract); `none` models a
  request exception (caught, treated as no results).
* `fetch url` — outcome of `session.get(url)`: `none` for a raised
  request exception, otherwise the status code together with the raw
  email-candidate strings the two extractors (mailto hrefs after
  `replace('mailto:','').split('?')[0]`, and the `EMAIL_RE` regex over the
  body) produce from the response text.
* `headStatus url` — status of `session.head(url)`, `none` on exception.
* `mxHosts domain` — `_mx_hosts`: the MX exchange hosts, `[]` when
  resolution fails, times out or yields nothing.
* `rcpt host addr` — outcome of `_smtp_rcpt(host, addr)`:
  `(code in (250, 251), code)`, or `(false, -1)` on a socket error.
* `randomLocal` — the 12-letter random local part drawn by `smtp_verify`.
* `exc` — `some msg` if the runtime raises an exception inside the
  orchestrator's guarded crawl/guess block (e.g. out of memory, a bug in a
  library call outside the per-page handlers); caught at line 252 of
  `app.py`. -/
structure Env where
  searchLinks : Str → Str → Option (List Str)
  fetch : Str → Option (Int × List Str)
  headStatus : Str → Option Int
  mxHosts : Str → List Str
  rcpt : Str → Str → Bool × Int
  randomLocal : Str
  exc : Option Str

/-! ### Domain discovery (`app.py`) -/

/-- Python `max(candidates, key=lambda x: x[0])`: the first pair attaining
the maximal score (Python's `max` keeps the earlier element on ties). -/
def maxByScore (l : List (ℚ × Str)) : Option (ℚ × Str) :=
  match l with
  | [] => none
  | x :: xs => some (xs.foldl (fun b y => if b.1 < y.1 then y else b) x)

/-- `EmailFinder._search_duckduckgo` of `app.py`: score every candidate
domain with `_similar`, take the best, and return it only when its score
exceeds 0.35 (= `mkRat 7 20`); `none` when the request failed, no links
were found, or the best score is too low. -/
def searchDuckduckgo (env : Env) (name country : Str) : Option Str :=
  match env.searchLinks name country with
  | none => none
  | some domains =>
    match maxByScore (domains.map (fun dm => (similar name dm, dm))) with
    | none => none
    | some best => if mkRat 7 20 < best.1 then some best.2 else none

/-- The acceptance test `if domain and self._similar(company_name, domain) > 0.4`
applied to a search result (0.4 = `mkRat 2 5`; an empty domain string is
falsy in Python). -/
def acceptDomain (name : Str) (d? : Option Str) : Option Str :=
  match d? with
  | none => none
  | some d => if d ≠ [] ∧ mkRat 2 5 < similar name d then some d else none

/-- `EmailFinder._domain_exists`: `HEAD https://{domain}` succeeds with a
status below 500; any transport error means "does not exist". -/
def domainExists (env : Env) (d : Str) : Bool :=
  match env.headStatus ("https://".toList ++ d) with
  | some code => decide (code < 500)
  | none => false

/-- The TLD list of the fallback loop in `find_company_domain`. -/
def TLDS : List Str :=
  [".com".toList, ".it".toList, ".co.uk".toList, ".fr".toList,
   ".es".toList, ".ch".toList]

/-- The fallback loop of `find_company_domain`: probe `slug + tld` for each
TLD in order and return the first that exists, else `slug + ".com"`. -/
def probeLoop (env : Env) (slug : Str) : List Str → Str
  | [] => slug ++ ".com".toList
  | tld :: rest =>
    if domainExists env (slug ++ tld) then slug ++ tld else probeLoop env slug rest

/-- `EmailFinder.find_company_domain` of `app.py` (the pure resolution
performed on a cache miss; the `lru_cache` wrapper is modelled separately
by `cacheCall`): accept the country search if it scores above 0.4, retry
without the country, then fall back to slug/TLD probing. -/
def findCompanyDomainApp (env : Env) (name country : Str) : Str :=
  match acceptDomain name (searchDuckduckgo env name country) with
  | some d => d
  | none =>
    match acceptDomain name (searchDuckduckgo env name []) with
    | some d => d
    | none => probeLoop env (slugOf name) TLDS

/-! ### Email scraping -/

/-- The page paths crawled by `find_emails` in `app.py`. -/
def PAGES_APP : List Str :=
  ["/".toList, "/contact".toList, "/about".toList, "/team".toList,
   "/staff".toList, "/contatti".toList, "/chi-siamo".toList,
   "/contacts".toList]

/-- The page paths crawled by `find_emails` in `company_email_finder.py`
(no `/contacts`). -/
def PAGES_CEF : List Str :=
  ["/".toList, "/contact".toList, "/about".toList, "/team".toList,
   "/staff".toList, "/contatti".toList, "/chi-siamo".toList]

/-- One page's contribution to the found-email set: every extracted
candidate that passes validation is added, lower-cased, to the set. -/
def addPageEmails (valid : Str → Bool) (found : List Str) (cands : List Str) : List Str :=
  cands.foldl (fun acc e => if valid e then insertUniq (lowerStr e) acc else acc) found

/-- The crawl loop of `app.py`'s `find_emails`: fetch each fixed page under
the base URL, skip pages whose request raised or whose status is ≥ 400,
and collect the validated extracted addresses (lower-cased, de-duplicated). -/
def crawlFoundApp (env : Env) (dom : Str) : List Str :=
  let baseUrl := if "http".toList.isPrefixOf dom then dom else "https://".toList ++ dom
  PAGES_APP.foldl (fun found page =>
    match env.fetch (urljoinM baseUrl page) with
    | none => found
    | some (status, cands) =>
      if 400 ≤ status then found
      else addPageEmails isValidEmailApp found cands) []

/-- The domain-affinity post-filter of `find_emails` (line 135 of `app.py`
and line 112 of `company_email_finder.py`): keep the found addresses that
contain the target domain as a substring anywhere in the full string. -/
def domainFilter (target : Str) (found : List Str) : List Str :=
  found.filter (fun e => substrB target e)

/-- `EmailFinder.find_emails` of `app.py`: crawl, then return the
target-domain-affine subset if non-empty, else everything found. -/
def appFindEmails (env : Env) (dom : Str) : List Str :=
  let targetDomain := stripWeb dom
  let found := crawlFoundApp env dom
  let domainEmails := domainFilter targetDomain found
  if domainEmails.isEmpty then found else domainEmails

/-- The crawl loop of `company_email_finder.py`'s `find_emails`: the same
collection over its seven pages, with `raise_for_status()` discarding any
page whose status is ≥ 400 (the exception is caught per page). -/
def crawlFoundCef (env : Env) (dom : Str) : List Str :=
  let baseUrl := if "http".toList.isPrefixOf dom then dom else "https://".toList ++ dom
  PAGES_CEF.foldl (fun found page =>
    match env.fetch (urljoinM baseUrl page) with
    | none => found
    | some (status, cands) =>
      if 400 ≤ status then found
      else addPageEmails isValidEmailCef found cands) []

/-- `EmailFinder.find_emails` of `company_email_finder.py`. -/
def cefFindEmails (env : Env) (dom : Str) : List Str :=
  let targetDomain := stripWeb dom
  let found := crawlFoundCef env dom
  let domainEmails := domainFilter targetDomain found
  if domainEmails.isEmpty then found else domainEmails

/-! ### Verification (`app.py`) -/

/-- `EmailFinder.verify_mx_domain`: the domain has at least one MX host. -/
def verifyMxDomain (env : Env) (dom : Str) : Bool :=
  decide (0 < (env.mxHosts dom).length)

/-- The probing loop of `smtp_verify` over (at most) the first two MX
hosts: per host, RCPT the random address then the target; both accepted
means catch-all `(false, true)`, only the target accepted means verified
`(true, false)`; otherwise try the next host, ending in `(false, false)`. -/
def smtpLoop (env : Env) (email randomAddr : Str) : List Str → Bool × Bool
  | [] => (false, false)
  | host :: rest =>
    let randOk := (env.rcpt host randomAddr).1
    let targetOk := (env.rcpt host email).1
    if randOk && targetOk then (false, true)
    else if targetOk then (true, false)
    else smtpLoop env email randomAddr rest

/-- `EmailFinder.smtp_verify`: split the address at its first `@` (`none`
models the `ValueError` when there is no `@`), return `(false, false)`
immediately when the domain has no MX hosts, else run the probing loop. -/
def smtpVerify (env : Env) (email : Str) : Option (Bool × Bool) :=
  (splitFirst '@' email).map (fun pr =>
    let dom := pr.2
    let mx := env.mxHosts dom
    if mx.isEmpty then (false, false)
    else smtpLoop env email (env.randomLocal ++ '@' :: dom) (mx.take 2))

/-- The sequence of `(host, recipient)` RCPT probes `smtp_verify` issues —
the SMTP sessions it opens — mirroring `smtpLoop`'s control flow. -/
def smtpLoopProbes (env : Env) (email randomAddr : Str) : List Str → List (Str × Str)
  | [] => []
  | host :: rest =>
    let randOk := (env.rcpt host randomAddr).1
    let targetOk := (env.rcpt host email).1
    (host, randomAddr) :: (host, email) ::
      (if randOk && targetOk then []
       else if targetOk then []
       else smtpLoopProbes env email randomAddr rest)

/-- The SMTP sessions opened by a `smtp_verify` call (empty when the
address has no `@` or the domain has no MX hosts). -/
def smtpVerifyProbes (env : Env) (email : Str) : List (Str × Str) :=
  match splitFirst '@' email with
  | none => []
  | some pr =>
    let dom := pr.2
    let mx := env.mxHosts dom
    if mx.isEmpty then []
    else smtpLoopProbes env email (env.randomLocal ++ '@' :: dom) (mx.take 2)

/-! ### Guessing (`app.py`) -/

/-- `GENERIC_GUESSES`. -/
def GENERIC_GUESSES : List Str :=
  ["info".toList, "contact".toList, "hello".toList, "office".toList,
   "sales".toList]

/-- `ENABLE_SMTP`. -/
def ENABLE_SMTP : Bool := true

/-- The verification loop of `guess_possible_emails`: SMTP-verify each
guess in order, break on the first catch-all detection, accumulate the
confirmed ones.  Returns the confirmed list and the catch-all flag. -/
def guessLoop (env : Env) : List Str → List Str × Bool
  | [] => ([], false)
  | e :: rest =>
    let res := if ENABLE_SMTP then (smtpVerify env e).getD (false, false) else (true, false)
    if res.2 then ([], true)
    else
      let r := guessLoop env rest
      (if res.1 then e :: r.1 else r.1, r.2)

/-- `EmailFinder.guess_possible_emails`: build the five generic guesses on
the stripped base domain, validate them, bail out when the base has no MX,
probe them, and suppress everything when a catch-all was detected.  (The
`company_name` parameter is unused in the source as well; `smtp_verify`'s
`ValueError` branch is unreachable here because validated addresses always
contain `@`.) -/
def guessPossibleEmails (env : Env) (dom companyName : Str) : List Str :=
  let base := stripWeb dom
  let guessed := GENERIC_GUESSES.map (fun p => p ++ '@' :: base)
  let filtered := guessed.filter isValidEmailApp
  if filtered.isEmpty then []
  else if ¬ verifyMxDomain env base then []
  else
    let r := guessLoop env filtered
    if r.2 then [] else r.1

/-! ### Orchestrators and results -/

/-- The JSON-like result dictionary.  `allEmails`/`success` are `none` when
the corresponding key is absent from the dictionary the source returns. -/
structure ResultR where
  company : Str
  domain : Str
  emails : List Str
  allEmails : Option (List Str)
  success : Option Bool
  deriving DecidableEq

/-- `EmailFinder.find_company_emails` of `app.py`: resolve the domain,
crawl (falling back to guessing when nothing was found), degrade to an
empty list when the guarded block raises, and always report
`success: True`.  The `verify` parameter is accepted but never read. -/
def appFindCompanyEmails (env : Env) (name country : Str) (verify : Bool) : ResultR :=
  let dom := findCompanyDomainApp env name country
  let emails :=
    match env.exc with
    | some _ => []
    | none =>
      let es := appFindEmails env dom
      if es.isEmpty then
        let guessed := guessPossibleEmails env dom name
        if guessed.isEmpty then es else guessed
      else es
  { company := name, domain := dom, emails := emails,
    allEmails := none, success := some true }

/-- `EmailFinder._search_duckduckgo` of `company_email_finder.py`: return
the first candidate domain that is non-empty and contains a dot. -/
def cefSearchDuckduckgo (env : Env) (name country : Str) : Option Str :=
  match env.searchLinks name country with
  | none => none
  | some domains => domains.find? (fun d => !d.isEmpty && d.contains '.')

/-- `EmailFinder.find_company_domain` of `company_email_finder.py`: a
successful search wins, else `slug + ".com"`. -/
def cefFindCompanyDomain (env : Env) (name country : Str) : Str :=
  match cefSearchDuckduckgo env name country with
  | some d => d
  | none => slugOf name ++ ".com".toList

/-- `EmailFinder.verify_mx_record` of `company_email_finder.py`: MX records
exist for the part of the address after its last `@` (resolution failure
means `false`). -/
def cefVerifyMxRecord (env : Env) (email : Str) : Bool :=
  decide (0 < (env.mxHosts ((splitOnChar '@' email).getLastD [])).length)

/-- `EmailFinder.find_company_emails` of `company_email_finder.py`: with
`verify` set, `emails` is narrowed by the MX check and the full extracted
list is returned as `all_emails`; without it, just the extracted list.
Neither branch carries a `success` key. -/
def cefFindCompanyEmails (env : Env) (name country : Str) (verify : Bool) : ResultR :=
  let dom := cefFindCompanyDomain env name country
  let emails := cefFindEmails env dom
  if verify then
    { company := name, domain := dom,
      emails := emails.filter (fun e => cefVerifyMxRecord env e),
      allEmails := some emails, success := none }
  else
    { company := name, domain := dom, emails := emails,
      allEmails := none, success := none }

/-! ### The `lru_cache(maxsize=100)` wrapper on `find_company_domain`

`functools.lru_cache` keyed on `(company_name, country)` (the bound method
of the single module-level `finder` instance, so `self` is constant): a
hit returns the cached value and marks the key most recently used; a miss
computes, inserts the key as most recently used, and evicts the least
recently used entry when the cache would exceed 100 entries.  The cache is
a list of key/value pairs in most-recently-used-first order.  Alongside
each call's result we count the network requests it issues (DuckDuckGo
POSTs and HEAD probes), to express "served from the memo without
re-issuing network requests". -/

/-- A cache key: `(company_name, country)`. -/
abbrev CacheKey := Str × Str

/-- The memo state, most recently used first. -/
abbrev Cache := List (CacheKey × Str)

/-- `maxsize` of the `lru_cache`. -/
def LRU_MAXSIZE : Nat := 100

/-- First value stored under a key, if any. -/
def cacheLookup (k : CacheKey) : Cache → Option Str
  | [] => none
  | (k', v) :: rest => if k' = k then some v else cacheLookup k rest

/-- Remove the first entry stored under a key. -/
def cacheErase (k : CacheKey) : Cache → Cache
  | [] => []
  | (k', v) :: rest => if k' = k then rest else (k', v) :: cacheErase k rest

/-- The fallback loop together with the number of HEAD probes it issues. -/
def probeLoopCount (env : Env) (slug : Str) : List Str → Str × Nat
  | [] => (slug ++ ".com".toList, 0)
  | tld :: rest =>
    if domainExists env (slug ++ tld) then (slug ++ tld, 1)
    else
      let r := probeLoopCount env slug rest
      (r.1, r.2 + 1)

/-- `find_company_domain` on a cache miss, paired with the number of
network requests it issues (one POST per search attempt, one HEAD per
existence probe). -/
def findCompanyDomainAppCount (env : Env) (name country : Str) : Str × Nat :=
  match acceptDomain name (searchDuckduckgo env name country) with
  | some d => (d, 1)
  | none =>
    match acceptDomain name (searchDuckduckgo env name []) with
    | some d => (d, 2)
    | none =>
      let r := probeLoopCount env (slugOf name) TLDS
      (r.1, 2 + r.2)

/-- One call through the memoised `find_company_domain`: the returned
domain, the number of network requests issued, and the new cache state. -/
def cacheCall (env : Env) (c : Cache) (k : CacheKey) : Str × Nat × Cache :=
  match cacheLookup k c with
  | some v => (v, 0, (k, v) :: cacheErase k c)
  | none =>
    let r := findCompanyDomainAppCount env k.1 k.2
    (r.1, r.2, ((k, r.1) :: c).take LRU_MAXSIZE)

/-- A sequence of memoised calls: the per-call `(domain, requests)` results
and the final cache state. -/
def runTrace (env : Env) (c : Cache) : List CacheKey → List (Str × Nat) × Cache
  | [] => ([], c)
  | k :: ks =>
    let step := cacheCall env c k
    let rest := runTrace env step.2.2 ks
    ((step.1, step.2.1) :: rest.1, rest.2)

/-! ### Concrete environments for witnesses and counterexamples -/

/-- A quiescent world: every request fails or is empty. -/
def baseEnv : Env where
  searchLinks := fun _ _ => none
  fetch := fun _ => none
  headStatus := fun _ => none
  mxHosts := fun _ => []
  rcpt := fun _ _ => (false, -1)
  randomLocal := "qjxzvkwypfgm".toList
  exc := none

/-- A world where the search finds `acme.com` and the root page of the
site exhibits the address `ab@acme.com`. -/
def envAcme : Env :=
  { baseEnv with
    searchLinks := fun _ _ => some ["acme.com".toList]
    fetch := fun url =>
      if url = "https://acme.com/".toList then
        some (200, ["ab@acme.com".toList])
      else none }

/-- A world whose crawl of `target.com` extracts exactly the two raw
candidates `a@target.com` and `b@othersite.com` on the root page. -/
def envTargetShort : Env :=
  { baseEnv with
    fetch := fun url =>
      if url = "https://target.com/".toList then
        some (200, ["a@target.com".toList, "b@othersite.com".toList])
      else none }

/-- A world whose crawl of `target.com` extracts exactly `ab@target.com`
and `cd@othersite.com` on the root page. -/
def envTarget : Env :=
  { baseEnv with
    fetch := fun url =>
      if url = "https://target.com/".toList then
        some (200, ["ab@target.com".toList, "cd@othersite.com".toList])
      else none }

/-- A world whose crawl of `acme.com` extracts two off-domain addresses,
with MX records existing only for `beta.org`. -/
def envTwoDomains : Env :=
  { baseEnv with
    searchLinks := fun _ _ => some ["acme.com".toList]
    fetch := fun url =>
      if url = "https://acme.com/".toList then
        some (200, ["cd@beta.org".toList, "ef@gamma.org".toList])
      else none
    mxHosts := fun d => if d = "beta.org".toList then ["mx.beta.org".toList] else [] }

/-- A world where `acme.com` has one MX host whose server accepts every
recipient (a catch-all). -/
def envCatchAll : Env :=
  { baseEnv with
    mxHosts := fun d => if d = "acme.com".toList then ["mx1.acme.com".toList] else []
    rcpt := fun _ _ => (true, 250) }

/-- A world where search always fails and `HEAD` requests yield 503 for
`acmecorp.com` but 200 for `acmecorp.it`. -/
def envProbes : Env :=
  { baseEnv with
    headStatus := fun url =>
      if url = "https://acmecorp.it".toList then some 200 else some 503 }

/-- A world where search always fails and every `HEAD` request yields 200,
so domain resolution always issues exactly three network requests and
returns `slug + ".com"`. -/
def envMemo : Env :=
  { baseEnv with headStatus := fun _ => some 200 }

/-- A world in which the guarded crawl/guess block of the orchestrator
raises an exception. -/
def envBoom : Env :=
  { baseEnv with exc := some "boom".toList }

/-- One hundred pairwise-distinct cache keys, all distinct from
`("acme", "")`. -/
def fillerKeys : List CacheKey :=
  (List.range LRU_MAXSIZE).map (fun i => ("k".toList ++ (Nat.repr i).toList, []))

/-- The call trace for the memoisation counterexample: the key
`("acme", "")`, then one hundred distinct other keys, then `("acme", "")`
again. -/
def memoTrace : List CacheKey :=
  ("acme".toList, []) :: fillerKeys ++ [("acme".toList, [])]

/-! ## Helper lemmas -/

/-- Splitting at the first `c` of `p ++ c :: rest` when `c` does not occur
in `p` yields `(p, rest)`. -/
theorem splitFirst_append_cons (c : Char) (p rest : Str) (h : c ∉ p) :
    splitFirst c (p ++ c :: rest) = some (p, rest) := by
  induction p with
  | nil => simp [splitFirst]
  | cons x xs ih =>
    have hx : x ≠ c := by
      intro hxc
      exact h (hxc ▸ List.mem_cons_self x xs)
    have hxs : c ∉ xs := fun hm => h (List.mem_cons_of_mem x hm)
    simp [splitFirst, hx, ih hxs]

/-- The score-maximising fold keeps an element of the candidate list. -/
theorem foldlBest_mem (xs : List (ℚ × Str)) (x : ℚ × Str) :
    xs.foldl (fun b y => if b.1 < y.1 then y else b) x ∈ x :: xs := by
  induction xs generalizing x with
  | nil => simp
  | cons y ys ih =>
    simp only [List.foldl_cons]
    have h := ih (if x.1 < y.1 then y else x)
    rcases List.mem_cons.mp h with h1 | h1
    · rw [h1]
      by_cases hlt : x.1 < y.1
      · simp [hlt]
      · simp [hlt]
    · exact List.mem_cons_of_mem _ (List.mem_cons_of_mem _ h1)

/-- The score-maximising fold dominates every candidate's score. -/
theorem foldlBest_ge (xs : List (ℚ × Str)) (x : ℚ × Str) :
    ∀ z ∈ x :: xs, z.1 ≤ (xs.foldl (fun b y => if b.1 < y.1 then y else b) x).1 := by
  induction xs generalizing x with
  | nil =>
    intro z hz
    simp only [List.mem_singleton] at hz
    simp [hz]
  | cons y ys ih =>
    intro z hz
    simp only [List.foldl_cons]
    have step : x.1 ≤ (if x.1 < y.1 then y else x).1 ∧ y.1 ≤ (if x.1 < y.1 then y else x).1 := by
      by_cases hlt : x.1 < y.1
      · simp [hlt, le_of_lt hlt]
      · simp [hlt, le_of_not_lt hlt]
    have hhead := ih (if x.1 < y.1 then y else x) _ (List.mem_cons_self _ _)
    rcases List.mem_cons.mp hz with h1 | h1
    · rw [h1]
      exact le_trans step.1 hhead
    · rcases List.mem_cons.mp h1 with h2 | h2
      · rw [h2]
        exact le_trans step.2 hhead
      · exact ih _ z (List.mem_cons_of_mem _ h2)

/-- `maxByScore` returns a member of its input. -/
theorem maxByScore_mem {l : List (ℚ × Str)} {b : ℚ × Str}
    (h : maxByScore l = some b) : b ∈ l := by
  match l with
  | [] => simp [maxByScore] at h
  | x :: xs =>
    simp only [maxByScore, Option.some.injEq] at h
    exact h ▸ foldlBest_mem xs x

/-- `maxByScore` dominates every member's score. -/
theorem maxByScore_ge {l : List (ℚ × Str)} {b : ℚ × Str}
    (h : maxByScore l = some b) : ∀ z ∈ l, z.1 ≤ b.1 := by
  match l with
  | [] => simp [maxByScore] at h
  | x :: xs =>
    simp only [maxByScore, Option.some.injEq] at h
    exact h ▸ foldlBest_ge xs x

/-- A domain accepted by the 0.4 gate scores above 0.4. -/
theorem acceptDomain_score {name : Str} {d? : Option Str} {d : Str}
    (h : acceptDomain name d? = some d) : mkRat 2 5 < similar name d := by
  match d? with
  | none => simp [acceptDomain] at h
  | some d0 =>
    simp only [acceptDomain] at h
    by_cases hc : d0 ≠ [] ∧ mkRat 2 5 < similar name d0
    · rw [if_pos hc] at h
      cases h
      exact hc.2
    · rw [if_neg hc] at h
      cases h

/-- The fallback probe loop returns the slug extended by one of its TLDs,
or the unconditional `slug + ".com"`. -/
theorem probeLoop_shape (env : Env) (slug : Str) (tlds : List Str) :
    probeLoop env slug tlds ∈ tlds.map (fun tld => slug ++ tld) ∨
    probeLoop env slug tlds = slug ++ ".com".toList := by
  induction tlds with
  | nil => exact Or.inr rfl
  | cons tld rest ih =>
    by_cases hx : domainExists env (slug ++ tld)
    · simp [probeLoop, hx]
    · rcases ih with h | h
      · exact Or.inl (by simp [probeLoop, hx, List.mem_cons]; right; simpa using h)
      · simp [probeLoop, hx, h]

/-! ## Claims -/

/-- Claim C5: for every email address whose domain yields no MX records
(resolution failure, timeout or empty answer — all of which make
`_mx_hosts` return the empty list), `smtp_verify` returns `(false, false)`
immediately and opens no SMTP session for that address. -/
theorem c5_no_mx_no_smtp (env : Env) (email loc dom : Str)
    (hsplit : splitFirst '@' email = some (loc, dom))
    (hmx : env.mxHosts dom = []) :
    smtpVerify env email = some (false, false) ∧ smtpVerifyProbes env email = [] := by
  constructor
  · simp [smtpVerify, hsplit, hmx]
  · simp [smtpVerifyProbes, hsplit, hmx]

/-- Witness for C5: a concrete address on a domain with no MX records. -/
theorem c5_witness :
    smtpVerify baseEnv "ab@nomx.example".toList = some (false, false) ∧
    smtpVerifyProbes baseEnv "ab@nomx.example".toList = [] :=
  c5_no_mx_no_smtp baseEnv "ab@nomx.example".toList "ab".toList "nomx.example".toList
    (by decide) (by decide)

/-- Claim C7 (counterexample): the similarity scorer is not symmetric —
`_similar("ab.c", "ab") = 0.8` while `_similar("ab", "ab.c") = 1.0`,
because the first argument is stripped of non-alphanumerics while the
second is cut at its first dot (and the underlying sequence-matcher ratio
is itself asymmetric). -/
theorem c7_counterexample :
    similar "ab.c".toList "ab".toList ≠ similar "ab".toList "ab.c".toList := by
  decide

/-- Claim C7 (amended): the similarity scorer is symmetric on argument
pairs whose two normalizations agree — `similar(a, b) = similar(b, a)`
whenever `cleaned_name` and `cleaned_domain` give the same strings on `a`
as on `b`; unrestricted symmetry fails. -/
theorem c7_amended (a b : Str)
    (h1 : cleanedName a = cleanedName b) (h2 : cleanedDomain a = cleanedDomain b) :
    similar a b = similar b a := by
  unfold similar
  rw [h1, h2]

/-- Witness for C7 (amended): `"Acme.com"` and `"acme.com"` normalize
identically in both roles, so their scores agree both ways. -/
theorem c7_witness :
    similar "Acme.com".toList "acme.com".toList
      = similar "acme.com".toList "Acme.com".toList :=
  c7_amended "Acme.com".toList "acme.com".toList (by decide) (by decide)

/-- Claim C9: the domain-affinity post-filter keeps an address exactly when
the target domain occurs as a substring anywhere in the full lower-cased
address string — not only when the domain part equals or ends with the
target: `target.com@other.org` and `a@notarget.community` both contain
`target.com` and are kept whenever they are in the filtered set, and
`find_emails` prefers exactly this filtered set when it is non-empty. -/
theorem c9_substring_affinity :
    (∀ target found e,
      e ∈ domainFilter target found ↔ e ∈ found ∧ substrB target e = true) ∧
    substrB "target.com".toList "target.com@other.org".toList = true ∧
    substrB "target.com".toList "a@notarget.community".toList = true ∧
    domainFilter "target.com".toList
        ["target.com@other.org".toList, "a@notarget.community".toList]
      = ["target.com@other.org".toList, "a@notarget.community".toList] ∧
    (∀ env dom, appFindEmails env dom =
      if (domainFilter (stripWeb dom) (crawlFoundApp env dom)).isEmpty
      then crawlFoundApp env dom
      else domainFilter (stripWeb dom) (crawlFoundApp env dom)) := by
  refine ⟨?_, by decide, by decide, by decide, ?_⟩
  · intro target found e
    simp [domainFilter, List.mem_filter]
  · intro env dom
    rfl

/-- Claim C10: the `app.py` orchestrator always reports `success: True` —
also when the guarded crawl/guess block raised internally (caught, the
email list degrading to empty) and when the final list is empty — so the
flag never distinguishes a failed or empty crawl from a successful one. -/
theorem c10_success_always :
    (∀ env name country verify,
      (appFindCompanyEmails env name country verify).success = some true) ∧
    (∀ env name country verify msg, env.exc = some msg →
      (appFindCompanyEmails env name country verify).emails = []) := by
  constructor
  · intro env name country verify
    rfl
  · intro env name country verify msg h
    simp [appFindCompanyEmails, h]

/-- Witness for C10: a world whose crawl raises still yields
`success: True` with an empty email list. -/
theorem c10_witness :
    (appFindCompanyEmails envBoom "acme".toList [] false).success = some true ∧
    (appFindCompanyEmails envBoom "acme".toList [] false).emails = [] :=
  ⟨c10_success_always.1 envBoom "acme".toList [] false,
   c10_success_always.2 envBoom "acme".toList [] false "boom".toList rfl⟩

/-- A catch-all SMTP world makes `smtp_verify` report `(false, true)` on
the first probed host. -/
theorem smtpVerify_catchall (env : Env) (email loc dom : Str)
    (hsplit : splitFirst '@' email = some (loc, dom))
    (hmx : env.mxHosts dom ≠ [])
    (hrcpt : ∀ host addr, (env.rcpt host addr).1 = true) :
    smtpVerify env email = some (false, true) := by
  unfold smtpVerify
  rw [hsplit]
  simp only [Option.map_some', Option.some.injEq]
  match hm : env.mxHosts dom with
  | [] => exact absurd hm hmx
  | h :: t =>
    simp only [List.isEmpty_cons, Bool.false_eq_true, if_false, List.take_succ_cons,
      smtpLoop, hrcpt, Bool.and_self, if_true]

/-- Claim C2: an address on a domain whose (existing) MX servers accept
every RCPT recipient is reported as `(exists = false, is_catch_all = true)`
by `smtp_verify`, and `guess_possible_emails` on that domain returns the
empty list — never a partial guess list. -/
theorem c2_catchall_suppression (env : Env) (email loc dom : Str)
    (hsplit : splitFirst '@' email = some (loc, dom))
    (hmx : env.mxHosts dom ≠ [])
    (hrcpt : ∀ host addr, (env.rcpt host addr).1 = true) :
    smtpVerify env email = some (false, true) ∧
    (stripWeb dom = dom →
      ∀ companyName, guessPossibleEmails env dom companyName = []) := by
  refine ⟨smtpVerify_catchall env email loc dom hsplit hmx hrcpt, ?_⟩
  intro hstrip companyName
  have hmxb : verifyMxDomain env dom = true := by
    unfold verifyMxDomain
    match hm : env.mxHosts dom with
    | [] => exact absurd hm hmx
    | h :: t => simp
  cases hf : (GENERIC_GUESSES.map (fun p => p ++ '@' :: dom)).filter isValidEmailApp with
  | nil => simp [guessPossibleEmails, hstrip, hf]
  | cons e rest =>
    have hmem : e ∈ GENERIC_GUESSES.map (fun p => p ++ '@' :: dom) :=
      List.mem_of_mem_filter (hf ▸ List.mem_cons_self e rest)
    rcases List.mem_map.mp hmem with ⟨p, hp, hpe⟩
    have hatAll : ∀ q ∈ GENERIC_GUESSES, '@' ∉ q := by decide
    have hsv : smtpVerify env e = some (false, true) :=
      smtpVerify_catchall env e p dom
        (hpe ▸ splitFirst_append_cons '@' p dom (hatAll p hp)) hmx hrcpt
    have hloop : guessLoop env (e :: rest) = ([], true) := by
      simp [guessLoop, ENABLE_SMTP, hsv]
    simp [guessPossibleEmails, hstrip, hf, hmxb, hloop]

/-- Inversion of a successful `_search_duckduckgo` call: the links were
parsed, the returned domain is the maximal-scoring candidate, and its
score beats 0.35. -/
theorem searchDuckduckgo_eq_some {env : Env} {name country d : Str}
    (h : searchDuckduckgo env name country = some d) :
    ∃ links best, env.searchLinks name country = some links ∧
      maxByScore (links.map (fun dm => (similar name dm, dm))) = some best ∧
      mkRat 7 20 < best.1 ∧ d = best.2 := by
  unfold searchDuckduckgo at h
  rcases hl : env.searchLinks name country with _ | links
  · rw [hl] at h
    exact Option.noConfusion h
  · rw [hl] at h
    have h1 : (match maxByScore (links.map (fun dm => (similar name dm, dm))) with
        | none => none
        | some best => if mkRat 7 20 < best.1 then some best.2 else none) = some d := h
    rcases hb : maxByScore (links.map (fun dm => (similar name dm, dm))) with _ | best
    · rw [hb] at h1
      exact Option.noConfusion h1
    · rw [hb] at h1
      have h2 : (if mkRat 7 20 < best.1 then some best.2 else none) = some d := h1
      by_cases hs : mkRat 7 20 < best.1
      · rw [if_pos hs] at h2
        injection h2 with h3
        exact ⟨links, best, rfl, hb, hs, h3.symm⟩
      · rw [if_neg hs] at h2
        exact Option.noConfusion h2

/-- Claim C4: a domain returned by `find_company_domain` other than via
the slug fallback scores strictly above 0.4 against the company name, and
`_search_duckduckgo` returns a candidate only when it is a maximal-scoring
candidate scoring strictly above 0.35. -/
theorem c4_score_gates :
    (∀ env name country,
      mkRat 2 5 < similar name (findCompanyDomainApp env name country) ∨
      findCompanyDomainApp env name country
        ∈ TLDS.map (fun tld => slugOf name ++ tld)) ∧
    (∀ env name country d, searchDuckduckgo env name country = some d →
      mkRat 7 20 < similar name d ∧
      ∃ links, env.searchLinks name country = some links ∧ d ∈ links ∧
        ∀ d' ∈ links, similar name d' ≤ similar name d) := by
  constructor
  · intro env name country
    unfold findCompanyDomainApp
    match h1 : acceptDomain name (searchDuckduckgo env name country) with
    | some d => exact Or.inl (acceptDomain_score h1)
    | none =>
      match h2 : acceptDomain name (searchDuckduckgo env name []) with
      | some d => exact Or.inl (acceptDomain_score h2)
      | none =>
        rcases probeLoop_shape env (slugOf name) TLDS with h | h
        · exact Or.inr h
        · refine Or.inr ?_
          rw [h]
          exact List.mem_map.mpr ⟨".com".toList, by decide, rfl⟩
  · intro env name country d h
    rcases searchDuckduckgo_eq_some h with ⟨links, best, hl, hb, hs, hd⟩
    have hbm := maxByScore_mem hb
    rcases List.mem_map.mp hbm with ⟨dm, hdm, hbe⟩
    have hfst : best.1 = similar name best.2 := by
      rw [← hbe]
    have hd2 : best.2 ∈ links := by
      have he : best.2 = dm := by rw [← hbe]
      exact he ▸ hdm
    subst hd
    refine ⟨hfst ▸ hs, links, hl, hd2, ?_⟩
    intro d' hd'
    have hle := maxByScore_ge hb (similar name d', d')
      (List.mem_map.mpr ⟨d', hd', rfl⟩)
    exact hfst ▸ hle

/-- Witness for C2: `acme.com` has one MX host accepting every recipient;
the probe reports a catch-all and the guesser suppresses all guesses. -/
theorem c2_witness :
    smtpVerify envCatchAll "ab@acme.com".toList = some (false, true) ∧
    guessPossibleEmails envCatchAll "acme.com".toList "x".toList = [] := by
  have h := c2_catchall_suppression envCatchAll "ab@acme.com".toList
    "ab".toList "acme.com".toList (by decide) (by decide) (fun _ _ => rfl)
  exact ⟨h.1, h.2 (by decide) "x".toList⟩

/-- Claim C3: whenever neither search attempt yields an accepted
candidate, `find_company_domain` runs the slug fallback: it probes
`slug + tld` for the six TLDs in their fixed order via a header-only
HTTPS request, returns the first whose status is below 500 (a transport
error counts as non-existent), and returns `slug + ".com"` unconditionally
when no probe succeeds. -/
theorem c3_slug_fallback :
    (∀ env name country,
      acceptDomain name (searchDuckduckgo env name country) = none →
      acceptDomain name (searchDuckduckgo env name []) = none →
      findCompanyDomainApp env name country = probeLoop env (slugOf name) TLDS) ∧
    (∀ env slug tld rest, probeLoop env slug (tld :: rest) =
      if domainExists env (slug ++ tld) then slug ++ tld
      else probeLoop env slug rest) ∧
    (∀ env slug, probeLoop env slug [] = slug ++ ".com".toList) ∧
    (∀ env d, domainExists env d = true ↔
      ∃ code, env.headStatus ("https://".toList ++ d) = some code ∧ code < 500) := by
  refine ⟨?_, fun _ _ _ _ => rfl, fun _ _ => rfl, ?_⟩
  · intro env name country h1 h2
    unfold findCompanyDomainApp
    rw [h1, h2]
  · intro env d
    unfold domainExists
    match h : env.headStatus ("https://".toList ++ d) with
    | none => simp
    | some code => simp

/-- Witness for C3: with the search engine unreachable,
`"Acme Corp!"` is slugged to `acmecorp`; `acmecorp.com` probes at 503 (не
below 500) and `acmecorp.it` at 200, so the second candidate is returned. -/
theorem c3_witness :
    findCompanyDomainApp envProbes "Acme Corp!".toList []
      = probeLoop envProbes (slugOf "Acme Corp!".toList) TLDS ∧
    probeLoop envProbes (slugOf "Acme Corp!".toList) TLDS = "acmecorp.it".toList :=
  ⟨c3_slug_fallback.1 envProbes "Acme Corp!".toList [] (by decide) (by decide),
   by decide⟩

/-- Witness for C4: the search on `"acme"` finds `acme.com` with score 1;
the resolver accepts it and the search-gate hypotheses are satisfied. -/
theorem c4_witness :
    (mkRat 2 5 < similar "acme".toList (findCompanyDomainApp envAcme "acme".toList []) ∨
      findCompanyDomainApp envAcme "acme".toList []
        ∈ TLDS.map (fun tld => slugOf "acme".toList ++ tld)) ∧
    (mkRat 7 20 < similar "acme".toList "acme.com".toList ∧
      ∃ links, envAcme.searchLinks "acme".toList [] = some links ∧
        "acme.com".toList ∈ links ∧
        ∀ d' ∈ links, similar "acme".toList d' ≤ similar "acme".toList "acme.com".toList) :=
  ⟨c4_score_gates.1 envAcme "acme".toList [],
   c4_score_gates.2 envAcme "acme".toList [] "acme.com".toList (by decide)⟩

/-- Claim C1 (counterexample): the `app.py` orchestrator, invoked with
`verify = true` and with direct on-page extraction returning a non-empty
list, returns a result with no `all_emails` field at all (its `verify`
parameter is never read), contradicting the claim's required shape. -/
theorem c1_counterexample :
    (appFindCompanyEmails envAcme "acme".toList [] true).emails
        = ["ab@acme.com".toList] ∧
    (appFindCompanyEmails envAcme "acme".toList [] true).allEmails = none := by
  constructor
  · decide
  · rfl

/-- Claim C1 (amended): the `company_email_finder.py` orchestrator, with
`verify` set and extraction non-empty, returns `all_emails` equal to the
full extracted list and `emails` narrowed to the addresses whose domain
passes the MX check (MX-only, no SMTP); the `app.py` orchestrator ignores
`verify` and never returns an `all_emails` field. -/
theorem c1_amended :
    (∀ env name country,
      cefFindEmails env (cefFindCompanyDomain env name country) ≠ [] →
      (cefFindCompanyEmails env name country true).allEmails
          = some (cefFindEmails env (cefFindCompanyDomain env name country)) ∧
      (cefFindCompanyEmails env name country true).emails
          = (cefFindEmails env (cefFindCompanyDomain env name country)).filter
              (fun e => cefVerifyMxRecord env e)) ∧
    (∀ env name country verify,
      (appFindCompanyEmails env name country verify).allEmails = none) := by
  constructor
  · intro env name country _
    exact ⟨rfl, rfl⟩
  · intro env name country verify
    rfl

/-- Witness for C1 (amended): a crawl of `acme.com` extracting
`cd@beta.org` and `ef@gamma.org`, with MX records only on `beta.org`:
`all_emails` keeps both, `emails` keeps the MX-verified one. -/
theorem c1_witness :
    (cefFindCompanyEmails envTwoDomains "acme".toList [] true).allEmails
        = some (cefFindEmails envTwoDomains
            (cefFindCompanyDomain envTwoDomains "acme".toList [])) ∧
    (cefFindCompanyEmails envTwoDomains "acme".toList [] true).emails
        = (cefFindEmails envTwoDomains
            (cefFindCompanyDomain envTwoDomains "acme".toList [])).filter
            (fun e => cefVerifyMxRecord envTwoDomains e) :=
  c1_amended.1 envTwoDomains "acme".toList [] (by decide)

/-- Claim C6 (counterexample): with the crawl of `target.com` extracting
exactly `{a@target.com, b@othersite.com}`, `find_emails` returns the empty
list — not `{a@target.com}` as the claim's instance states — because the
validator rejects every address whose local part is shorter than two
characters. -/
theorem c6_counterexample :
    appFindEmails envTargetShort "target.com".toList = [] ∧
    isValidEmailApp "a@target.com".toList = false ∧
    isValidEmailApp "b@othersite.com".toList = false := by
  refine ⟨by decide, by decide, by decide⟩

/-- Claim C6 (amended): if at least one validated extracted address
contains the target domain (the resolved domain stripped of scheme and
`www.`), `find_emails` returns exactly the validated addresses that
contain it; if none does, it returns all validated addresses.  In
particular, for validated extracted addresses `{ab@target.com,
cd@othersite.com}` and target `target.com` the result is exactly
`{ab@target.com}`. -/
theorem c6_affinity :
    (∀ env dom,
      (∃ e ∈ crawlFoundApp env dom, substrB (stripWeb dom) e = true) →
      appFindEmails env dom = domainFilter (stripWeb dom) (crawlFoundApp env dom)) ∧
    (∀ env dom,
      (∀ e ∈ crawlFoundApp env dom, substrB (stripWeb dom) e = false) →
      appFindEmails env dom = crawlFoundApp env dom) ∧
    appFindEmails envTarget "target.com".toList = ["ab@target.com".toList] := by
  refine ⟨?_, ?_, by decide⟩
  · intro env dom hex
    unfold appFindEmails
    have hne : (domainFilter (stripWeb dom) (crawlFoundApp env dom)).isEmpty = false := by
      rcases hex with ⟨e, he, hsub⟩
      have hmem : e ∈ domainFilter (stripWeb dom) (crawlFoundApp env dom) :=
        List.mem_filter.mpr ⟨he, hsub⟩
      have hnil := List.ne_nil_of_mem hmem
      exact Bool.eq_false_iff.mpr (fun ht => hnil (List.isEmpty_iff.mp ht))
    simp [hne]
  · intro env dom hall
    unfold appFindEmails
    have hnil : domainFilter (stripWeb dom) (crawlFoundApp env dom) = [] := by
      unfold domainFilter
      exact List.filter_eq_nil_iff.mpr (fun e he => by simp [hall e he])
    simp [hnil]

/-- Looking up a key whose first occurrence is behind `pre` finds it. -/
theorem cacheLookup_append_not_mem {K : CacheKey} {v : Str} (pre post : Cache)
    (h : K ∉ pre.map Prod.fst) :
    cacheLookup K (pre ++ (K, v) :: post) = some v := by
  induction pre with
  | nil => simp [cacheLookup]
  | cons e pre' ih =>
    have hne : e.1 ≠ K := by
      intro he
      exact h (he ▸ List.mem_map.mpr ⟨e, List.mem_cons_self _ _, rfl⟩)
    have h' : K ∉ pre'.map Prod.fst := fun hm => h (List.mem_cons_of_mem _ hm)
    simpa [cacheLookup, hne] using ih h'

/-- A successful lookup means the pair is in the cache. -/
theorem cacheLookup_mem {k : CacheKey} {w : Str} :
    ∀ {c : Cache}, cacheLookup k c = some w → (k, w) ∈ c := by
  intro c
  induction c with
  | nil => intro h; exact Option.noConfusion h
  | cons e rest ih =>
    intro h
    unfold cacheLookup at h
    by_cases he : e.1 = k
    · rw [if_pos he] at h
      injection h with h'
      have heq : e = (k, w) := by
        cases e
        simp only [Prod.mk.injEq]
        exact ⟨he, h'⟩
      exact List.mem_cons.mpr (Or.inl heq.symm)
    · rw [if_neg he] at h
      exact List.mem_cons_of_mem _ (ih h)

/-- A failed lookup means the key is absent. -/
theorem cacheLookup_none_not_mem {k : CacheKey} :
    ∀ {c : Cache}, cacheLookup k c = none → k ∉ c.map Prod.fst := by
  intro c
  induction c with
  | nil => intro _ h; simp at h
  | cons e rest ih =>
    intro h hm
    unfold cacheLookup at h
    by_cases he : e.1 = k
    · rw [if_pos he] at h
      exact Option.noConfusion h
    · rw [if_neg he] at h
      rcases List.mem_cons.mp hm with h1 | h1
      · exact he h1.symm
      · exact ih h h1

/-- Erasure passes over a block that does not hold the key. -/
theorem cacheErase_append_not_mem {k : CacheKey} (l₁ l₂ : Cache)
    (h : k ∉ l₁.map Prod.fst) :
    cacheErase k (l₁ ++ l₂) = l₁ ++ cacheErase k l₂ := by
  induction l₁ with
  | nil => rfl
  | cons e l' ih =>
    have hne : e.1 ≠ k := by
      intro he
      exact h (he ▸ List.mem_map.mpr ⟨e, List.mem_cons_self _ _, rfl⟩)
    have h' : k ∉ l'.map Prod.fst := fun hm => h (List.mem_cons_of_mem _ hm)
    simp [cacheErase, hne, ih h']

/-- Erasure acts inside a block that holds the key. -/
theorem cacheErase_append_mem {k : CacheKey} (l₁ l₂ : Cache)
    (h : k ∈ l₁.map Prod.fst) :
    cacheErase k (l₁ ++ l₂) = cacheErase k l₁ ++ l₂ := by
  induction l₁ with
  | nil => simp at h
  | cons e l' ih =>
    by_cases he : e.1 = k
    · simp [cacheErase, he]
    · have h' : k ∈ l'.map Prod.fst := by
        rcases List.mem_cons.mp h with h1 | h1
        · exact absurd h1.symm he
        · exact h1
      simp [cacheErase, he, ih h']

/-- Erased keys are a sub-collection of the original keys. -/
theorem cacheErase_keys_subset (k : CacheKey) :
    ∀ (c : Cache), ∀ x ∈ (cacheErase k c).map Prod.fst, x ∈ c.map Prod.fst := by
  intro c
  induction c with
  | nil => intro x hx; simp [cacheErase] at hx
  | cons e rest ih =>
    intro x hx
    unfold cacheErase at hx
    by_cases he : e.1 = k
    · rw [if_pos he] at hx
      exact List.mem_cons_of_mem _ hx
    · rw [if_neg he] at hx
      simp only [List.map_cons, List.mem_cons] at hx ⊢
      rcases hx with h1 | h1
      · exact Or.inl h1
      · exact Or.inr (ih x h1)

/-- Moving a present entry to the front permutes the keys. -/
theorem moveFront_keys_perm {k : CacheKey} {w : Str} :
    ∀ {c : Cache}, cacheLookup k c = some w →
      (((k, w) :: cacheErase k c).map Prod.fst).Perm (c.map Prod.fst) := by
  intro c
  induction c with
  | nil => intro h; exact Option.noConfusion h
  | cons e rest ih =>
    intro h
    unfold cacheLookup at h
    by_cases he : e.1 = k
    · rw [if_pos he] at h
      have herase : cacheErase k (e :: rest) = rest := by
        simp [cacheErase, he]
      rw [herase]
      simp only [List.map_cons, he]
      exact List.Perm.refl _
    · rw [if_neg he] at h
      have hp : List.Perm (k :: (cacheErase k rest).map Prod.fst) (rest.map Prod.fst) := by
        simpa using ih h
      have hL : ((k, w) :: cacheErase k (e :: rest)).map Prod.fst
          = k :: e.1 :: (cacheErase k rest).map Prod.fst := by
        simp [cacheErase, he]
      rw [hL]
      simp only [List.map_cons]
      exact List.Perm.trans (List.Perm.swap e.1 k _) (List.Perm.cons e.1 hp)

/-- In a duplicate-free cache split around an entry, the entry's key does
not occur in the prefix. -/
theorem keys_decomp_notmem {pre post : Cache} {K : CacheKey} {v : Str}
    (h : ((pre ++ (K, v) :: post).map Prod.fst).Nodup) : K ∉ pre.map Prod.fst := by
  rw [List.map_append, List.map_cons] at h
  have hd := List.disjoint_of_nodup_append h
  intro hm
  exact hd hm (List.mem_cons_self _ _)

/-- Core preservation property of the LRU memo: if the cache holds `(K, v)`
behind a duplicate-free prefix, and the keys of the prefix together with
the distinct non-`K` keys of the remaining call trace number at most
`maxsize - 1`, then after running the trace the memo still yields `v` for
`K`. -/
theorem lru_run_lookup (env : Env) (K : CacheKey) (v : Str) :
    ∀ (mid : List CacheKey) (pre post : Cache),
      ((pre ++ (K, v) :: post).map Prod.fst).Nodup →
      ((pre.map Prod.fst).toFinset
          ∪ (mid.filter (fun k => decide (k ≠ K))).toFinset).card ≤ LRU_MAXSIZE - 1 →
      cacheLookup K (runTrace env (pre ++ (K, v) :: post) mid).2 = some v := by
  intro mid
  induction mid with
  | nil =>
    intro pre post hnodup _
    exact cacheLookup_append_not_mem pre post (keys_decomp_notmem hnodup)
  | cons k' rest ih =>
    intro pre post hnodup hcard
    have hKpre : K ∉ pre.map Prod.fst := keys_decomp_notmem hnodup
    simp only [runTrace]
    by_cases hk : k' = K
    · -- a repeated call on K itself: a hit that moves (K, v) to the front
      subst hk
      have hlook : cacheLookup k' (pre ++ (k', v) :: post) = some v :=
        cacheLookup_append_not_mem pre post hKpre
      have hcc : cacheCall env (pre ++ (k', v) :: post) k'
          = (v, 0, (k', v) :: cacheErase k' (pre ++ (k', v) :: post)) := by
        simp [cacheCall, hlook]
      rw [hcc]
      have herase : cacheErase k' (pre ++ (k', v) :: post) = pre ++ post := by
        rw [cacheErase_append_not_mem _ _ hKpre]
        simp [cacheErase]
      have hgoal := ih [] (pre ++ post) ?nodup ?card
      · simpa [herase] using hgoal
      case nodup =>
        have hperm : List.Perm ((pre ++ (k', v) :: post).map Prod.fst)
            ((([] : Cache) ++ (k', v) :: (pre ++ post)).map Prod.fst) := by
          simp only [List.nil_append, List.map_append, List.map_cons]
          exact List.perm_middle
        exact hperm.nodup hnodup
      case card =>
        refine le_trans (Finset.card_le_card ?_) hcard
        intro x hx
        simp only [List.map_nil, List.toFinset_nil, Finset.empty_union] at hx
        have hfil : (k' :: rest).filter (fun k => decide (k ≠ k'))
            = rest.filter (fun k => decide (k ≠ k')) := by
          simp
        rw [hfil]
        exact Finset.mem_union_right _ hx
    · rcases hlk : cacheLookup k' (pre ++ (K, v) :: post) with _ | w
      · -- a miss on a fresh key: insert it in front and truncate to maxsize
        have hnotmem := cacheLookup_none_not_mem hlk
        have hcc : cacheCall env (pre ++ (K, v) :: post) k'
            = ((findCompanyDomainAppCount env k'.1 k'.2).1,
               (findCompanyDomainAppCount env k'.1 k'.2).2,
               ((k', (findCompanyDomainAppCount env k'.1 k'.2).1)
                  :: (pre ++ (K, v) :: post)).take LRU_MAXSIZE) := by
          simp [cacheCall, hlk]
        have hnodup2 : ((pre.map Prod.fst ++ (K :: post.map Prod.fst))).Nodup := by
          have h0 := hnodup
          rw [List.map_append, List.map_cons] at h0
          exact h0
        have hpnd : (pre.map Prod.fst).Nodup := hnodup2.of_append_left
        have hknotpre : k' ∉ pre.map Prod.fst := fun hm =>
          hnotmem (by rw [List.map_append]; exact List.mem_append_left _ hm)
        have hkmem : k' ∈ ((k' :: rest).filter (fun k => decide (k ≠ K))).toFinset := by
          simp [List.mem_filter, hk]
        have hfil : (k' :: rest).filter (fun k => decide (k ≠ K))
            = k' :: rest.filter (fun k => decide (k ≠ K)) := by
          simp [hk]
        have hins : insert k' (pre.map Prod.fst).toFinset
            ⊆ (pre.map Prod.fst).toFinset
              ∪ ((k' :: rest).filter (fun k => decide (k ≠ K))).toFinset := by
          intro x hx
          rcases Finset.mem_insert.mp hx with h1 | h1
          · subst h1
            exact Finset.mem_union_right _ hkmem
          · exact Finset.mem_union_left _ h1
        have hcard1 : (pre.map Prod.fst).toFinset.card + 1 ≤ LRU_MAXSIZE - 1 := by
          have hle := le_trans (Finset.card_le_card hins) hcard
          rwa [Finset.card_insert_of_not_mem (by simpa using hknotpre)] at hle
        have hplen : pre.length ≤ LRU_MAXSIZE - 2 := by
          have hfc : (pre.map Prod.fst).toFinset.card = pre.length := by
            rw [List.toFinset_card_of_nodup hpnd, List.length_map]
          simp only [LRU_MAXSIZE] at hcard1 ⊢
          omega
        have hsplit : ((k', (findCompanyDomainAppCount env k'.1 k'.2).1)
              :: (pre ++ (K, v) :: post)).take LRU_MAXSIZE
            = ((k', (findCompanyDomainAppCount env k'.1 k'.2).1) :: pre)
              ++ (K, v) :: post.take (LRU_MAXSIZE - 2 - pre.length) := by
          rw [show ((k', (findCompanyDomainAppCount env k'.1 k'.2).1)
                :: (pre ++ (K, v) :: post))
              = ((k', (findCompanyDomainAppCount env k'.1 k'.2).1) :: pre)
                ++ ((K, v) :: post) from rfl]
          rw [List.take_append_eq_append_take]
          have hlen1 : ((k', (findCompanyDomainAppCount env k'.1 k'.2).1) :: pre).length
              ≤ LRU_MAXSIZE := by
            simp only [List.length_cons, LRU_MAXSIZE]
            simp only [LRU_MAXSIZE] at hplen
            omega
          rw [List.take_of_length_le hlen1]
          congr 1
          have harith : LRU_MAXSIZE
                - ((k', (findCompanyDomainAppCount env k'.1 k'.2).1) :: pre).length
              = (LRU_MAXSIZE - 2 - pre.length) + 1 := by
            simp only [List.length_cons, LRU_MAXSIZE]
            simp only [LRU_MAXSIZE] at hplen
            omega
          rw [harith, List.take_succ_cons]
        have hnd2 : ((((k', (findCompanyDomainAppCount env k'.1 k'.2).1) :: pre)
              ++ (K, v) :: post.take (LRU_MAXSIZE - 2 - pre.length)).map Prod.fst).Nodup := by
          rw [← hsplit, List.map_take]
          refine List.Nodup.sublist (List.take_sublist _ _) ?_
          rw [List.map_cons]
          exact List.nodup_cons.mpr ⟨hnotmem, hnodup⟩
        have hc2 : ((((k', (findCompanyDomainAppCount env k'.1 k'.2).1) :: pre).map
                Prod.fst).toFinset
              ∪ (rest.filter (fun k => decide (k ≠ K))).toFinset).card
            ≤ LRU_MAXSIZE - 1 := by
          refine le_trans (le_of_eq (congrArg Finset.card ?_)) hcard
          rw [hfil]
          simp [Finset.union_insert, Finset.insert_union]
        have hgoal := ih _ _ hnd2 hc2
        rw [hcc]
        simpa [hsplit] using hgoal
      · -- a hit on another key: move it to the front
        have hcc : cacheCall env (pre ++ (K, v) :: post) k'
            = (w, 0, (k', w) :: cacheErase k' (pre ++ (K, v) :: post)) := by
          simp [cacheCall, hlk]
        have hpermKeys := moveFront_keys_perm hlk
        have hkmem : k' ∈ ((k' :: rest).filter (fun k => decide (k ≠ K))).toFinset := by
          simp [List.mem_filter, hk]
        have hfil : (k' :: rest).filter (fun k => decide (k ≠ K))
            = k' :: rest.filter (fun k => decide (k ≠ K)) := by
          simp [hk]
        by_cases hpre : k' ∈ pre.map Prod.fst
        · have herase : cacheErase k' (pre ++ (K, v) :: post)
              = cacheErase k' pre ++ (K, v) :: post :=
            cacheErase_append_mem _ _ hpre
          have hkeq : (k', w) :: cacheErase k' (pre ++ (K, v) :: post)
              = ((k', w) :: cacheErase k' pre) ++ (K, v) :: post := by
            rw [herase]
            rfl
          have hnd2 : ((((k', w) :: cacheErase k' pre) ++ (K, v) :: post).map
              Prod.fst).Nodup := by
            rw [← hkeq]
            exact hpermKeys.nodup_iff.mpr hnodup
          have hc2 : ((((k', w) :: cacheErase k' pre).map Prod.fst).toFinset
                ∪ (rest.filter (fun k => decide (k ≠ K))).toFinset).card
              ≤ LRU_MAXSIZE - 1 := by
            refine le_trans (Finset.card_le_card ?_) hcard
            intro x hx
            rw [hfil]
            simp only [List.map_cons, List.toFinset_cons, Finset.mem_union,
              Finset.mem_insert, List.mem_toFinset, List.toFinset_cons] at hx ⊢
            rcases hx with (h1 | h1) | h1
            · exact Or.inr (Or.inl h1)
            · exact Or.inl (by
                simpa using cacheErase_keys_subset k' pre x (by simpa using h1))
            · exact Or.inr (Or.inr h1)
          have hgoal := ih _ _ hnd2 hc2
          rw [hcc]
          simpa [hkeq] using hgoal
        · have hKk : ((K, v) : CacheKey × Str).1 ≠ k' := fun h => hk h.symm
          have herase : cacheErase k' (pre ++ (K, v) :: post)
              = pre ++ (K, v) :: cacheErase k' post := by
            rw [cacheErase_append_not_mem _ _ hpre]
            congr 1
            simp [cacheErase, hKk]
          have hkeq : (k', w) :: cacheErase k' (pre ++ (K, v) :: post)
              = ((k', w) :: pre) ++ (K, v) :: cacheErase k' post := by
            rw [herase]
            rfl
          have hnd2 : ((((k', w) :: pre) ++ (K, v) :: cacheErase k' post).map
              Prod.fst).Nodup := by
            rw [← hkeq]
            exact hpermKeys.nodup_iff.mpr hnodup
          have hc2 : ((((k', w) :: pre).map Prod.fst).toFinset
                ∪ (rest.filter (fun k => decide (k ≠ K))).toFinset).card
              ≤ LRU_MAXSIZE - 1 := by
            refine le_trans (le_of_eq (congrArg Finset.card ?_)) hcard
            rw [hfil]
            simp [Finset.union_insert, Finset.insert_union]
          have hgoal := ih _ _ hnd2 hc2
          rw [hcc]
          simpa [hkeq] using hgoal

/-- The counting probe loop computes the same domain as the plain one. -/
theorem probeLoopCount_fst (env : Env) (slug : Str) :
    ∀ tlds, (probeLoopCount env slug tlds).1 = probeLoop env slug tlds := by
  intro tlds
  induction tlds with
  | nil => rfl
  | cons tld rest ih =>
    by_cases hx : domainExists env (slug ++ tld)
    · simp [probeLoopCount, probeLoop, hx]
    · simp [probeLoopCount, probeLoop, hx, ih]

/-- The counting resolver computes the same domain as the plain one. -/
theorem findCompanyDomainAppCount_fst (env : Env) (name country : Str) :
    (findCompanyDomainAppCount env name country).1 = findCompanyDomainApp env name country := by
  unfold findCompanyDomainAppCount findCompanyDomainApp
  match acceptDomain name (searchDuckduckgo env name country) with
  | some d => rfl
  | none =>
    match acceptDomain name (searchDuckduckgo env name []) with
    | some d => rfl
    | none => exact probeLoopCount_fst env (slugOf name) TLDS

/-- Running a concatenated trace concatenates the per-call results. -/
theorem runTrace_append (env : Env) :
    ∀ (xs ys : List CacheKey) (c : Cache),
      runTrace env c (xs ++ ys)
        = ((runTrace env c xs).1 ++ (runTrace env (runTrace env c xs).2 ys).1,
           (runTrace env (runTrace env c xs).2 ys).2) := by
  intro xs
  induction xs with
  | nil => intro ys c; rfl
  | cons k ks ih =>
    intro ys c
    simp only [List.cons_append, runTrace]
    rw [show ks.append ys = ks ++ ys from rfl, ih]

/-- Claim C8 (counterexample): with one hundred distinct other keys
resolved in between, the repeated call for `("acme", "")` is *not* served
from the memo: the first entry is evicted by `lru_cache(maxsize=100)` and
the second identical call issues three fresh network requests (two search
posts and one HEAD probe), instead of zero. -/
theorem c8_counterexample :
    (runTrace envMemo [] memoTrace).1.head? = some ("acme.com".toList, 3) ∧
    (runTrace envMemo [] memoTrace).1.getLast? = some ("acme.com".toList, 3) := by
  constructor
  · decide
  · decide

/-- Claim C8 (amended): two calls with the identical `(company_name,
country)` key return the identical domain, with the repeated call served
from the memo and issuing no network requests, *provided* at most
`maxsize - 1 = 99` distinct other keys are resolved in between (the memo
is an LRU cache of capacity 100, so a hundred distinct intervening keys
can evict the entry). -/
theorem c8_amended (env : Env) (K : CacheKey) (mid : List CacheKey)
    (hdistinct : (mid.filter (fun k => decide (k ≠ K))).toFinset.card ≤ LRU_MAXSIZE - 1) :
    ∃ n rs,
      (runTrace env [] (K :: mid ++ [K])).1
        = (findCompanyDomainApp env K.1 K.2, n) :: rs
            ++ [(findCompanyDomainApp env K.1 K.2, 0)] := by
  have hfirst : cacheCall env [] K
      = ((findCompanyDomainAppCount env K.1 K.2).1,
         (findCompanyDomainAppCount env K.1 K.2).2,
         [(K, (findCompanyDomainAppCount env K.1 K.2).1)]) := by
    simp [cacheCall, cacheLookup, LRU_MAXSIZE]
  have hmidLookup : cacheLookup K
      (runTrace env [(K, (findCompanyDomainAppCount env K.1 K.2).1)] mid).2
        = some (findCompanyDomainAppCount env K.1 K.2).1 := by
    have h := lru_run_lookup env K (findCompanyDomainAppCount env K.1 K.2).1 mid []
      [] (by simp) (by simpa using hdistinct)
    simpa using h
  refine ⟨(findCompanyDomainAppCount env K.1 K.2).2,
    (runTrace env [(K, (findCompanyDomainAppCount env K.1 K.2).1)] mid).1, ?_⟩
  have hsplit : K :: mid ++ [K] = (K :: mid) ++ [K] := rfl
  rw [hsplit, runTrace_append]
  have hKfirst : runTrace env [] (K :: mid)
      = ((findCompanyDomainApp env K.1 K.2, (findCompanyDomainAppCount env K.1 K.2).2)
            :: (runTrace env [(K, (findCompanyDomainAppCount env K.1 K.2).1)] mid).1,
         (runTrace env [(K, (findCompanyDomainAppCount env K.1 K.2).1)] mid).2) := by
    simp only [runTrace, hfirst, findCompanyDomainAppCount_fst]
  rw [hKfirst]
  have hlast : runTrace env
        (runTrace env [(K, (findCompanyDomainAppCount env K.1 K.2).1)] mid).2 [K]
      = ([((findCompanyDomainAppCount env K.1 K.2).1, 0)],
         (K, (findCompanyDomainAppCount env K.1 K.2).1)
           :: cacheErase K
             (runTrace env [(K, (findCompanyDomainAppCount env K.1 K.2).1)] mid).2) := by
    simp only [runTrace, cacheCall, hmidLookup]
  rw [hlast, findCompanyDomainAppCount_fst]

/-- Witness for C8 (amended): with no intervening calls at all, the
repeated call returns the same domain and issues zero network requests. -/
theorem c8_witness :
    ∃ n rs,
      (runTrace envMemo [] (("acme".toList, ([] : Str)) :: [] ++ [("acme".toList, ([] : Str))])).1
        = (findCompanyDomainApp envMemo "acme".toList [], n) :: rs
            ++ [(findCompanyDomainApp envMemo "acme".toList [], 0)] :=
  c8_amended envMemo ("acme".toList, ([] : Str)) [] (by decide)

/-- Witness for C6 (amended): the crawl of `target.com` finds
`ab@target.com` (which contains the target), so the result is exactly the
affine subset. -/
theorem c6_witness :
    appFindEmails envTarget "target.com".toList
      = domainFilter (stripWeb "target.com".toList)
          (crawlFoundApp envTarget "target.com".toList) :=
  c6_affinity.1 envTarget "target.com".toList
    ⟨"ab@target.com".toList, by decide, by decide⟩

end EmailFinderApi
